import Mathlib

/-!
Verification of the project-listing pipeline of js/projects.js
(load → filter/search → paginate → render) over a shallow embedding.

JavaScript strings are modelled as Lean `String` (a list of characters);
`toLowerCase` is modelled with ASCII case folding (`Char.toLower`), which
covers every character the pipeline's string operations are applied to.
-/

namespace Portfolio

/-- Model of `String.prototype.toLowerCase` (ASCII case folding). -/
def jsToLower (s : String) : String := String.mk (s.data.map Char.toLower)

/-- The whitespace characters removed by `String.prototype.trim`. -/
def isWs (c : Char) : Bool :=
  c == ' ' || c == '\t' || c == '\n' || c == '\r' ||
    c == '\x0b' || c == '\x0c' || c == '\u00A0' || c == '\uFEFF'

/-- Model of `String.prototype.trim`: drop whitespace from both ends. -/
def jsTrim (s : String) : String :=
  String.mk (((s.data.dropWhile isWs).reverse.dropWhile isWs).reverse)

/-- Does `needle` occur at the very start of `hay`? (helper for `includes`). -/
def leadMatch : List Char → List Char → Bool
  | [], _ => true
  | _ :: _, [] => false
  | n :: ns, h :: hs => n == h && leadMatch ns hs

/-- Does `needle` occur anywhere inside the haystack? -/
def subMatch (needle : List Char) : List Char → Bool
  | [] => needle.isEmpty
  | h :: hs => leadMatch needle (h :: hs) || subMatch needle hs

/-- Model of `String.prototype.includes`. -/
def jsIncludes (hay needle : String) : Bool := subMatch needle.data hay.data

/-- The decimal digit character for `d < 10`. -/
def digitChar (d : Nat) : Char := Char.ofNat (48 + d)

/-- Little-endian decimal digits of `n`; `fuel = n` suffices for the recursion. -/
def digitsRev (fuel : Nat) (n : Nat) : List Nat :=
  match fuel with
  | 0 => []
  | fuel + 1 => if n = 0 then [] else n % 10 :: digitsRev fuel (n / 10)

/-- Decimal rendering of a natural number, as the template literal produces. -/
def natToString (n : Nat) : String :=
  if n = 0 then "0" else String.mk ((digitsRev n n).reverse.map digitChar)

/-- Little-endian value of a digit list (used to invert `digitsRev`). -/
def digitsVal : List Nat → Nat
  | [] => 0
  | d :: ds => d + 10 * digitsVal ds

/-- `"p" + (i + 1)`: the id synthesized for the record at 0-based position `i`. -/
def synthId (i : Nat) : String := "p" ++ natToString (i + 1)

/-- A `tech` / `tags` field as the source JSON may carry it: absent, a single
    string, or an array of strings (§3 of the spec). -/
inductive StrVal where
  | absent
  | str (s : String)
  | arr (l : List String)
deriving DecidableEq

/-- A source record, restricted to the fields js/projects.js reads, at the
    types §3 of the spec gives them. -/
structure Project where
  id : Option String
  title : String
  description : Option String
  tech : StrVal
  tags : StrVal
deriving DecidableEq

/-- A record after load-time normalization: `id` is always present. -/
structure NProject where
  id : String
  title : String
  description : Option String
  tech : StrVal
  tags : StrVal
deriving DecidableEq

/-- One step of `data.map((p, i) => ({ id: p.id || p(i+1), ...p }))`: the
    spread re-supplies every field of the source object, so a present `id`
    always wins and an absent one is synthesized from the position. -/
def normRec (i : Nat) (p : Project) : NProject :=
  { id := p.id.getD (synthId i), title := p.title, description := p.description,
    tech := p.tech, tags := p.tags }

/-- The normalizing map with explicit 0-based positions starting at `k`. -/
def normalizeFrom (k : Nat) : List Project → List NProject
  | [] => []
  | p :: ps => normRec k p :: normalizeFrom (k + 1) ps

/-- Load-time normalization of the whole catalog. -/
def loadNormalize (data : List Project) : List NProject := normalizeFrom 0 data

/-- `(p.tech || '').toString()` / `(p.tags || '').toString()`: an absent field
    renders as `''`, a string as itself, an array comma-joined. -/
def strValToString : StrVal → String
  | .absent => ""
  | .str s => s
  | .arr l => String.intercalate "," l

/-- The search haystack of `applyFilters`: title, description, tech and tags
    joined with single spaces (before lower-casing). -/
def hay (p : NProject) : String :=
  p.title ++ " " ++ p.description.getD "" ++ " " ++
    strValToString p.tech ++ " " ++ strValToString p.tags

/-- `Array.isArray(p.tags) ? p.tags.includes(tech) : (p.tags === tech)`:
    an absent `tags` compares unequal to the selected string. -/
def tagsMatch (tags : StrVal) (sel : String) : Bool :=
  match tags with
  | .absent => false
  | .str s => s == sel
  | .arr l => l.contains sel

/-- `Array.isArray(p.tech) && p.tech.map(t => t.toLowerCase()).includes(tech)`:
    only an array-valued `tech` is consulted. -/
def techMatch (tech : StrVal) (sel : String) : Bool :=
  match tech with
  | .arr l => (l.map jsToLower).contains sel
  | _ => false

/-- The `okTech` disjunction of `applyFilters`. -/
def okTech (sel : String) (p : NProject) : Bool :=
  sel == "all" || tagsMatch p.tags sel || techMatch p.tech sel

/-- The text test of `applyFilters` on an already trimmed and lower-cased
    query: empty query passes, otherwise substring of the lower-cased hay. -/
def textOk (query : String) (p : NProject) : Bool :=
  query == "" || jsIncludes (jsToLower (hay p)) query

/-- The whole per-record predicate of `applyFilters` (tag AND text). -/
def projPred (sel query : String) (p : NProject) : Bool :=
  okTech sel p && textOk query p

/-- `projects.filter(...)` from the raw search-input value: the query is
    trimmed, then lower-cased, before matching. -/
def filterProjects (sel rawQuery : String) (l : List NProject) : List NProject :=
  l.filter (projPred sel (jsToLower (jsTrim rawQuery)))

/-- The `PER_PAGE` constant. -/
def perPage : Nat := 6

/-- The module-level mutable state of js/projects.js. -/
structure AppState where
  projects : List NProject
  filtered : List NProject
  currentPage : Nat
  totalPages : Nat
deriving DecidableEq

/-- `filtered.slice(start, start + PER_PAGE)` for a 1-based page number. -/
def pageSlice (l : List NProject) (page : Nat) : List NProject :=
  (l.drop ((page - 1) * perPage)).take perPage

/-- What the grid container holds after a render / load. -/
inductive GridView where
  | cards (items : List NProject)
  | noResults
  | loadErrorNotice
deriving DecidableEq

/-- The DOM pieces the pipeline writes: grid content and pagination hiding. -/
structure Dom where
  grid : GridView
  paginationHidden : Bool
deriving DecidableEq

/-- `render()`: on empty `filtered` it writes the empty state, hides
    pagination, and returns — `totalPages` and `currentPage` keep their
    previous values.  Otherwise it recomputes `totalPages`, clamps
    `currentPage` from above only, and shows the current slice. -/
def renderStep (s : AppState) : AppState × Dom :=
  if s.filtered.length = 0 then
    (s, { grid := .noResults, paginationHidden := true })
  else
    let tp := max 1 ((s.filtered.length + perPage - 1) / perPage)
    let cp := min s.currentPage tp
    let s2 := { s with totalPages := tp, currentPage := cp }
    (s2, { grid := .cards (pageSlice s2.filtered cp), paginationHidden := decide (tp ≤ 1) })

/-- The state component of `render()`. -/
def renderUpdate (s : AppState) : AppState := (renderStep s).1

/-- `applyFilters` just before its call to `render`: new filtered subset,
    cursor reset to page 1. -/
def applyFiltersPre (sel rawQuery : String) (s : AppState) : AppState :=
  { s with filtered := filterProjects sel rawQuery s.projects, currentPage := 1 }

/-- The whole `applyFilters` handler (filter, reset cursor, render). -/
def applyFiltersState (sel rawQuery : String) (s : AppState) : AppState :=
  renderUpdate (applyFiltersPre sel rawQuery s)

/-- The next-page click handler: guarded increment, then render. -/
def nextPage (s : AppState) : AppState :=
  if s.currentPage < s.totalPages then
    renderUpdate { s with currentPage := s.currentPage + 1 }
  else s

/-- The prev-page click handler: guarded decrement, then render. -/
def prevPage (s : AppState) : AppState :=
  if 1 < s.currentPage then
    renderUpdate { s with currentPage := s.currentPage - 1 }
  else s

/-- A JSON value, as `resp.json()` may produce it. -/
inductive JsVal where
  | jnull
  | jbool (b : Bool)
  | jnum (n : Int)
  | jstr (s : String)
  | jarr (elems : List JsVal)
  | jobj (fields : List (String × JsVal))

/-- Outcome of the one `fetch`: rejection, or a response with an `ok` flag
    and an optional parsed body (`none` when `resp.json()` fails). -/
inductive FetchResult where
  | networkFailure
  | response (ok : Bool) (body : Option JsVal)

/-- The failure kinds of `load()` (each one ends in the same catch block). -/
inductive LoadFailure where
  | fetchRejected
  | httpNotOk
  | jsonUnreadable
  | notAnArray
deriving DecidableEq

/-- The checks of `load()` up to and including the `Array.isArray` test:
    only array-ness of the body is checked, never its element types. -/
def loadParse : FetchResult → Except LoadFailure (List JsVal)
  | .networkFailure => .error .fetchRejected
  | .response false _ => .error .httpNotOk
  | .response true none => .error .jsonUnreadable
  | .response true (some (.jarr l)) => .ok l
  | .response true (some _) => .error .notAnArray

/-- First binding of key `k` in a JSON object's field list. -/
def lookupField (k : String) : List (String × JsVal) → Option JsVal
  | [] => none
  | (k2, v) :: rest => if k2 == k then some v else lookupField k rest

/-- Read a string-typed optional field. -/
def asStr : Option JsVal → Option String
  | some (.jstr s) => some s
  | _ => none

/-- Read a `tech`/`tags` field at the string-or-string-array types of §3. -/
def asStrVal : Option JsVal → StrVal
  | some (.jstr s) => .str s
  | some (.jarr l) => .arr (l.filterMap fun v => match v with | .jstr s => some s | _ => none)
  | _ => .absent

/-- Project the fields js/projects.js reads off one source entry. -/
def toProject (v : JsVal) : Project :=
  match v with
  | .jobj fs =>
    { id := asStr (lookupField "id" fs),
      title := (asStr (lookupField "title" fs)).getD "",
      description := asStr (lookupField "description" fs),
      tech := asStrVal (lookupField "tech" fs),
      tags := asStrVal (lookupField "tags" fs) }
  | _ => { id := none, title := "", description := none, tech := .absent, tags := .absent }

/-- Module state before `load()` runs. -/
def initialState : AppState :=
  { projects := [], filtered := [], currentPage := 1, totalPages := 1 }

/-- The whole `load()`: on any failure the catch block writes the
    unable-to-load notice and hides pagination, leaving the catalog store
    untouched; on success it normalizes, stores, and renders. -/
def loadStep (fr : FetchResult) (s : AppState) : AppState × Dom :=
  match loadParse fr with
  | .error _ => (s, { grid := .loadErrorNotice, paginationHidden := true })
  | .ok items =>
    let ps := loadNormalize (items.map toProject)
    renderStep { s with projects := ps, filtered := ps }

/-- The spec's reading of a `tech`/`tags` field as a collection of values
    (a single string is the one-element collection). -/
def specColl : StrVal → List String
  | .absent => []
  | .str s => [s]
  | .arr l => l

/-- Modelled from the spec: the tag predicate as claim C2 words it — the
    sentinel is selected, or the tags collection contains the selected tag
    case-sensitively, or the tech collection contains it with tech values
    lower-cased at comparison time. -/
def specTagPred (sel : String) (p : NProject) : Prop :=
  sel = "all" ∨ sel ∈ specColl p.tags ∨ sel ∈ (specColl p.tech).map jsToLower

/-- Is a JSON value an object? (for C7's "sequence of objects"). -/
def isObjVal : JsVal → Bool
  | .jobj _ => true
  | _ => false

/-- No explicit id collides with another explicit id or with any synthesized
    positional id: the condition under which normalized ids are unique. -/
def sourceIdsOk (data : List Project) : Prop :=
  (data.filterMap Project.id).Nodup ∧
    ∀ s ∈ data.filterMap Project.id, ∀ i < data.length, s ≠ synthId i

/-- A minimal record used in concrete instances. -/
def sampleRec (i : Nat) : NProject :=
  { id := synthId i, title := "T", description := none, tech := .absent, tags := .absent }

/-- Seven records, as after a successful load of seven id-less entries. -/
def ps7 : List NProject := (List.range 7).map sampleRec

/-- The state after loading `ps7` (render computed `totalPages = 2`). -/
def loaded7 : AppState := renderUpdate { projects := ps7, filtered := ps7, currentPage := 1, totalPages := 1 }

/-- A record whose `tech` is the single string `"x"` and whose `tags` are absent. -/
def recC2 : NProject :=
  { id := "x1", title := "t", description := none, tech := .str "x", tags := .absent }

/-- Source data whose second record explicitly carries the id the first one
    will be synthesized to. -/
def cexData : List Project :=
  [{ id := none, title := "a", description := none, tech := .absent, tags := .absent },
   { id := some "p1", title := "b", description := none, tech := .absent, tags := .absent }]

/-- A one-record state on page 1 of 1 (used in concrete instances). -/
def navState : AppState :=
  { projects := [sampleRec 0], filtered := [sampleRec 0], currentPage := 1, totalPages := 1 }

/-- Source data with one explicit id and one synthesized id, collision-free. -/
def okData : List Project :=
  [{ id := some "a", title := "a", description := none, tech := .absent, tags := .absent },
   { id := none, title := "b", description := none, tech := .absent, tags := .absent }]

/-- Three source records whose third entry (0-indexed 2) has no id. -/
def dataW9 : List Project :=
  [{ id := some "a", title := "a", description := none, tech := .absent, tags := .absent },
   { id := some "b", title := "b", description := none, tech := .absent, tags := .absent },
   { id := none, title := "c", description := none, tech := .absent, tags := .absent }]

/-- One record tagged `"x"` (used in concrete instances). -/
def lw : List NProject :=
  [{ id := "w1", title := "w", description := none, tech := .absent, tags := .str "x" }]

/-- A JSON body that is an array, but not an array of objects. -/
def scalarArray : JsVal := .jarr [.jnum 1]

/-! ### String lemmas -/

theorem mk_data (l : List Char) : (String.mk l).data = l := rfl

theorem data_append (s t : String) : (s ++ t).data = s.data ++ t.data := rfl

theorem string_eq_empty_iff (s : String) : s = "" ↔ s.data = [] := by
  constructor
  · intro h; subst h; rfl
  · intro h; exact String.ext h

theorem jsToLower_eq_empty_iff (s : String) : jsToLower s = "" ↔ s = "" := by
  rw [string_eq_empty_iff, string_eq_empty_iff]
  simp [jsToLower]

theorem leadMatch_iff (n h : List Char) :
    leadMatch n h = true ↔ ∃ rest, h = n ++ rest := by
  induction n generalizing h with
  | nil => simp [leadMatch]
  | cons c cs ih =>
    cases h with
    | nil => simp [leadMatch]
    | cons d ds =>
      simp only [leadMatch, Bool.and_eq_true, beq_iff_eq, ih, List.cons_append,
        List.cons.injEq]
      constructor
      · rintro ⟨hcd, rest, hrest⟩; exact ⟨rest, hcd.symm, hrest⟩
      · rintro ⟨rest, hdc, hrest⟩; exact ⟨hdc.symm, rest, hrest⟩

theorem subMatch_iff (n h : List Char) :
    subMatch n h = true ↔ ∃ a b, h = a ++ n ++ b := by
  induction h with
  | nil =>
    simp only [subMatch, List.isEmpty_iff]
    constructor
    · intro hn; exact ⟨[], [], by simp [hn]⟩
    · rintro ⟨a, b, hab⟩
      have h2 : a = [] ∧ n = [] ∧ b = [] := by
        simpa [List.append_eq_nil] using hab.symm
      exact h2.2.1
  | cons x xs ih =>
    simp only [subMatch, Bool.or_eq_true, leadMatch_iff, ih]
    constructor
    · rintro (⟨rest, hr⟩ | ⟨a, b, hab⟩)
      · exact ⟨[], rest, by simpa using hr⟩
      · exact ⟨x :: a, b, by simp [hab]⟩
    · rintro ⟨a, b, hab⟩
      cases a with
      | nil => exact Or.inl ⟨b, by simpa using hab⟩
      | cons y ys =>
        have h2 : x = y ∧ xs = ys ++ n ++ b := by simpa using hab
        exact Or.inr ⟨ys, b, h2.2⟩

theorem jsIncludes_iff (hs ns : String) :
    jsIncludes hs ns = true ↔ ∃ a b : String, hs = a ++ ns ++ b := by
  unfold jsIncludes
  rw [subMatch_iff]
  constructor
  · rintro ⟨a, b, hab⟩
    refine ⟨String.mk a, String.mk b, String.ext ?_⟩
    simpa [data_append, mk_data] using hab
  · rintro ⟨a, b, hab⟩
    exact ⟨a.data, b.data, by simpa [data_append] using congrArg String.data hab⟩

/-! ### Decimal rendering is injective -/

theorem digitsVal_digitsRev : ∀ fuel n, n ≤ fuel → digitsVal (digitsRev fuel n) = n := by
  intro fuel
  induction fuel with
  | zero => intro n hn; interval_cases n; rfl
  | succ f ih =>
    intro n hn
    by_cases h0 : n = 0
    · subst h0; simp [digitsRev, digitsVal]
    · have hdiv : n / 10 ≤ f := by
        have : n / 10 < n := Nat.div_lt_self (by omega) (by omega)
        omega
      simp only [digitsRev, h0, if_false, digitsVal, ih _ hdiv]
      omega

theorem digitsRev_lt_ten : ∀ fuel n d, d ∈ digitsRev fuel n → d < 10 := by
  intro fuel
  induction fuel with
  | zero => intro n d hd; simp [digitsRev] at hd
  | succ f ih =>
    intro n d hd
    by_cases h0 : n = 0
    · simp [digitsRev, h0] at hd
    · simp only [digitsRev, h0, if_false, List.mem_cons] at hd
      rcases hd with h | h
      · omega
      · exact ih _ _ h

theorem digitChar_inj_lt : ∀ d < 10, ∀ e < 10, digitChar d = digitChar e → d = e := by decide

theorem map_digitChar_inj : ∀ (ds es : List Nat), (∀ d ∈ ds, d < 10) → (∀ e ∈ es, e < 10) →
    ds.map digitChar = es.map digitChar → ds = es := by
  intro ds
  induction ds with
  | nil =>
    intro es _ _ h
    cases es with
    | nil => rfl
    | cons e es => simp at h
  | cons d ds ih =>
    intro es hds hes h
    cases es with
    | nil => simp at h
    | cons e es =>
      simp only [List.map_cons, List.cons.injEq] at h
      have hd : d = e := digitChar_inj_lt d (hds d (by simp)) e (hes e (by simp)) h.1
      have ht := ih es (fun x hx => hds x (by simp [hx])) (fun x hx => hes x (by simp [hx])) h.2
      simp [hd, ht]

theorem natToString_ne_zero (n : Nat) (hn : n ≠ 0) : natToString n ≠ "0" := by
  intro h
  unfold natToString at h
  rw [if_neg hn] at h
  have hd := congrArg String.data h
  simp only [mk_data] at hd
  have hrev : (digitsRev n n).reverse = [0] := by
    apply map_digitChar_inj
    · intro d hdm
      exact digitsRev_lt_ten n n d (List.mem_reverse.mp hdm)
    · intro e he
      simp at he
      omega
    · rw [hd]; rfl
  have hdig : digitsRev n n = [0] := by
    have := congrArg List.reverse hrev
    simpa using this
  have := digitsVal_digitsRev n n le_rfl
  rw [hdig] at this
  simp [digitsVal] at this
  omega

theorem natToString_inj : ∀ m n : Nat, natToString m = natToString n → m = n := by
  intro m n h
  by_cases hm : m = 0 <;> by_cases hn : n = 0
  · omega
  · exfalso
    subst hm
    have h0 : natToString 0 = "0" := rfl
    rw [h0] at h
    exact natToString_ne_zero n hn h.symm
  · exfalso
    subst hn
    have h0 : natToString 0 = "0" := rfl
    rw [h0] at h
    exact natToString_ne_zero m hm h
  · unfold natToString at h
    rw [if_neg hm, if_neg hn] at h
    have hd := congrArg String.data h
    simp only [mk_data] at hd
    have hrev : (digitsRev m m).reverse = (digitsRev n n).reverse := by
      apply map_digitChar_inj _ _ _ _ hd
      · intro d hdm
        exact digitsRev_lt_ten m m d (List.mem_reverse.mp hdm)
      · intro e hem
        exact digitsRev_lt_ten n n e (List.mem_reverse.mp hem)
    have hdig : digitsRev m m = digitsRev n n := by
      have := congrArg List.reverse hrev
      simpa using this
    have hv1 := digitsVal_digitsRev m m le_rfl
    have hv2 := digitsVal_digitsRev n n le_rfl
    rw [hdig] at hv1
    omega

theorem synthId_inj : ∀ i j : Nat, synthId i = synthId j → i = j := by
  intro i j h
  unfold synthId at h
  have hd := congrArg String.data h
  simp only [data_append, List.cons_append, List.nil_append, List.cons.injEq,
    true_and] at hd
  have hs : natToString (i + 1) = natToString (j + 1) := String.ext hd
  have := natToString_inj _ _ hs
  omega

/-! ### Normalization lemmas -/

theorem normalizeFrom_length : ∀ (k : Nat) (ps : List Project),
    (normalizeFrom k ps).length = ps.length := by
  intro k ps
  induction ps generalizing k with
  | nil => rfl
  | cons p ps ih => simp [normalizeFrom, ih]

theorem normalizeFrom_get : ∀ (k : Nat) (ps : List Project) (i : Nat)
    (h : i < ps.length) (h2 : i < (normalizeFrom k ps).length),
    (normalizeFrom k ps).get ⟨i, h2⟩ = normRec (k + i) (ps.get ⟨i, h⟩) := by
  intro k ps
  induction ps generalizing k with
  | nil => intro i h _; exact absurd h (by simp)
  | cons p ps ih =>
    intro i h h2
    cases i with
    | zero => simp [normalizeFrom]
    | succ j =>
      have hj : j < ps.length := by simpa using h
      have hj2 : j < (normalizeFrom (k + 1) ps).length := by
        rw [normalizeFrom_length]; exact hj
      have step : (normalizeFrom k (p :: ps)).get ⟨j + 1, h2⟩ =
          (normalizeFrom (k + 1) ps).get ⟨j, hj2⟩ := rfl
      rw [step, ih (k + 1) j hj hj2]
      congr 1
      omega

theorem mem_normalizeFrom_id : ∀ (k : Nat) (ps : List Project) (x : String),
    x ∈ (normalizeFrom k ps).map NProject.id →
    x ∈ ps.filterMap Project.id ∨ ∃ i, i < ps.length ∧ x = synthId (k + i) := by
  intro k ps
  induction ps generalizing k with
  | nil => intro x hx; simp [normalizeFrom] at hx
  | cons p ps ih =>
    intro x hx
    simp only [normalizeFrom, List.map_cons, List.mem_cons] at hx
    rcases hx with h | h
    · cases hid : p.id with
      | none =>
        right
        refine ⟨0, by simp, ?_⟩
        simp only [normRec, hid, Option.getD_none] at h
        simpa using h
      | some s =>
        left
        simp only [normRec, hid, Option.getD_some] at h
        rw [List.filterMap_cons_some hid, List.mem_cons]
        exact Or.inl h
    · rcases ih (k + 1) x h with h2 | h2
      · left
        cases hid : p.id with
        | none => rwa [List.filterMap_cons_none hid]
        | some s =>
          rw [List.filterMap_cons_some hid, List.mem_cons]
          exact Or.inr h2
      · right
        obtain ⟨i, hi, hx2⟩ := h2
        refine ⟨i + 1, by simpa using Nat.succ_lt_succ hi, ?_⟩
        rw [hx2]
        congr 1
        omega

theorem normalizeFrom_id_nodup : ∀ (k : Nat) (ps : List Project),
    (ps.filterMap Project.id).Nodup →
    (∀ s ∈ ps.filterMap Project.id, ∀ i, k ≤ i → i < k + ps.length → s ≠ synthId i) →
    ((normalizeFrom k ps).map NProject.id).Nodup := by
  intro k ps
  induction ps generalizing k with
  | nil => intro _ _; simp [normalizeFrom]
  | cons p ps ih =>
    intro hnd hsyn
    simp only [normalizeFrom, List.map_cons, List.nodup_cons]
    constructor
    · intro hmem
      rcases mem_normalizeFrom_id (k + 1) ps _ hmem with hin | ⟨i, hi, heq⟩
      · cases hid : p.id with
        | none =>
          have hk : (normRec k p).id = synthId k := by simp [normRec, hid]
          rw [hk] at hin
          have hm2 : synthId k ∈ (p :: ps).filterMap Project.id := by
            rw [List.filterMap_cons_none hid]; exact hin
          exact hsyn _ hm2 k le_rfl (by simp) rfl
        | some s =>
          have hk : (normRec k p).id = s := by simp [normRec, hid]
          rw [hk] at hin
          rw [List.filterMap_cons_some hid] at hnd
          exact (List.nodup_cons.mp hnd).1 hin
      · cases hid : p.id with
        | none =>
          have hk : (normRec k p).id = synthId k := by simp [normRec, hid]
          rw [hk] at heq
          have := synthId_inj _ _ heq
          omega
        | some s =>
          have hk : (normRec k p).id = s := by simp [normRec, hid]
          rw [hk] at heq
          have hm2 : s ∈ (p :: ps).filterMap Project.id := by
            rw [List.filterMap_cons_some hid]
            exact List.mem_cons_self _ _
          exact hsyn s hm2 (k + 1 + i) (by omega) (by simp; omega) heq
    · apply ih (k + 1)
      · cases hid : p.id with
        | none => rwa [List.filterMap_cons_none hid] at hnd
        | some s =>
          rw [List.filterMap_cons_some hid] at hnd
          exact (List.nodup_cons.mp hnd).2
      · intro s hs i hki hlt
        refine hsyn s ?_ i (by omega) (by simp; omega)
        cases hid : p.id with
        | none => rwa [List.filterMap_cons_none hid]
        | some t =>
          rw [List.filterMap_cons_some hid]
          exact List.mem_cons_of_mem _ hs

/-! ### State-operation lemmas -/

theorem renderUpdate_projects (s : AppState) : (renderUpdate s).projects = s.projects := by
  unfold renderUpdate renderStep
  split <;> rfl

theorem renderUpdate_filtered (s : AppState) : (renderUpdate s).filtered = s.filtered := by
  unfold renderUpdate renderStep
  split <;> rfl

theorem renderUpdate_of_empty (s : AppState) (h : s.filtered.length = 0) :
    renderUpdate s = s := by
  unfold renderUpdate renderStep
  rw [if_pos h]

theorem renderUpdate_totalPages (s : AppState) (h : s.filtered.length ≠ 0) :
    (renderUpdate s).totalPages = max 1 ((s.filtered.length + perPage - 1) / perPage) := by
  unfold renderUpdate renderStep
  rw [if_neg h]

theorem renderUpdate_currentPage (s : AppState) (h : s.filtered.length ≠ 0) :
    (renderUpdate s).currentPage =
      min s.currentPage (max 1 ((s.filtered.length + perPage - 1) / perPage)) := by
  unfold renderUpdate renderStep
  rw [if_neg h]

theorem tagsMatch_iff (tags : StrVal) (sel : String) :
    tagsMatch tags sel = true ↔ sel ∈ specColl tags := by
  cases tags with
  | absent => simp [tagsMatch, specColl]
  | str s =>
    simp only [tagsMatch, specColl, beq_iff_eq, List.mem_singleton]
    exact eq_comm
  | arr l =>
    simp only [tagsMatch, specColl]
    exact List.elem_iff

theorem techMatch_iff (tech : StrVal) (sel : String) :
    techMatch tech sel = true ↔ ∃ l, tech = .arr l ∧ sel ∈ l.map jsToLower := by
  cases tech with
  | absent => simp [techMatch]
  | str s => simp [techMatch]
  | arr l =>
    have h1 : (l.map jsToLower).contains sel = true ↔ sel ∈ l.map jsToLower :=
      List.elem_iff
    simp only [techMatch]
    rw [h1]
    simp

/-! ### Claim theorems -/

/-- C4: for every catalog and every tag/query combination, the filtered subset
    stored by `applyFilters` is exactly `filter` of the full catalog, and that
    filter is a sublist of the catalog — so any two records both present in
    the output appear in the same relative order as in the original. -/
theorem filtered_preserves_order_c4 (sel rawQ : String) (s : AppState) :
    (applyFiltersState sel rawQ s).filtered = filterProjects sel rawQ s.projects ∧
    (filterProjects sel rawQ s.projects).Sublist s.projects := by
  constructor
  · unfold applyFiltersState
    rw [renderUpdate_filtered]
    rfl
  · exact List.filter_sublist _

/-- C5: recomputing the filters sets the current page to 1 before rendering
    (`applyFiltersPre`), and the page stored after the subsequent render is
    still 1, for every prior view state and every tag/query input. -/
theorem filters_reset_page_c5 (sel rawQ : String) (s : AppState) :
    (applyFiltersPre sel rawQ s).currentPage = 1 ∧
    (applyFiltersState sel rawQ s).currentPage = 1 := by
  refine ⟨rfl, ?_⟩
  unfold applyFiltersState
  by_cases h : (applyFiltersPre sel rawQ s).filtered.length = 0
  · rw [renderUpdate_of_empty _ h]; rfl
  · rw [renderUpdate_currentPage _ h]
    have h1 : (applyFiltersPre sel rawQ s).currentPage = 1 := rfl
    rw [h1]
    omega

/-- C8: activating the previous-page control on page 1, or the next-page
    control when the current page equals `totalPages`, leaves the whole state
    — current page and displayed slice included — unchanged (no wrapping). -/
theorem nav_no_wrap_c8 (s : AppState) :
    (s.currentPage = 1 →
      prevPage s = s ∧
      pageSlice (prevPage s).filtered (prevPage s).currentPage =
        pageSlice s.filtered s.currentPage) ∧
    (s.currentPage = s.totalPages →
      nextPage s = s ∧
      pageSlice (nextPage s).filtered (nextPage s).currentPage =
        pageSlice s.filtered s.currentPage) := by
  constructor
  · intro h
    have hp : prevPage s = s := by
      unfold prevPage
      rw [if_neg (by omega : ¬ 1 < s.currentPage)]
    exact ⟨hp, by rw [hp]⟩
  · intro h
    have hp : nextPage s = s := by
      unfold nextPage
      rw [if_neg (by omega : ¬ s.currentPage < s.totalPages)]
    exact ⟨hp, by rw [hp]⟩

/-- C8 witness: on the concrete one-page state both controls are no-ops. -/
theorem nav_no_wrap_c8_witness :
    (navState.currentPage = 1 ∧ navState.currentPage = navState.totalPages) ∧
    prevPage navState = navState ∧ nextPage navState = navState :=
  ⟨⟨rfl, rfl⟩, ((nav_no_wrap_c8 navState).1 rfl).1, ((nav_no_wrap_c8 navState).2 rfl).1⟩

/-- C1 (amended): for every nonempty filtered subset of size `n` and requested
    page ≥ 1, after `render` the stored `totalPages` is `max 1 ⌈n / 6⌉` and
    the stored current page is `min requested totalPages`, which lies in
    `[1, totalPages]`; requested pages above `totalPages` clamp down to it.
    (On an empty subset `render` returns early and updates neither field —
    the original claim fails there, see the counterexample.) -/
theorem render_pagination_c1 (s : AppState) (h1 : s.filtered.length ≠ 0)
    (h2 : 1 ≤ s.currentPage) :
    (renderUpdate s).totalPages = max 1 ((s.filtered.length + perPage - 1) / perPage) ∧
    (renderUpdate s).currentPage = min s.currentPage (renderUpdate s).totalPages ∧
    1 ≤ (renderUpdate s).currentPage ∧
    (renderUpdate s).currentPage ≤ (renderUpdate s).totalPages ∧
    perPage * ((renderUpdate s).totalPages - 1) < s.filtered.length ∧
    s.filtered.length ≤ perPage * (renderUpdate s).totalPages := by
  have htp := renderUpdate_totalPages s h1
  have hcp := renderUpdate_currentPage s h1
  rw [htp, hcp]
  have hpp : perPage = 6 := rfl
  rw [hpp]
  omega

/-- C1 witness: the amended statement evaluated on a one-record state. -/
theorem render_pagination_c1_witness :
    navState.filtered.length ≠ 0 ∧ 1 ≤ navState.currentPage ∧
    (renderUpdate navState).totalPages =
      max 1 ((navState.filtered.length + perPage - 1) / perPage) :=
  ⟨by decide, by decide, (render_pagination_c1 navState (by decide) (by decide)).1⟩

/-- C1 counterexample: filtering a loaded 7-record catalog (2 pages) down to
    the empty subset leaves the stored `totalPages` at its stale value 2,
    although `max 1 ⌈0 / 6⌉ = 1` — `render` returns early on an empty subset
    and recomputes nothing. -/
theorem render_pagination_c1_counterexample :
    (applyFiltersState "none" "" loaded7).filtered.length = 0 ∧
    (applyFiltersState "none" "" loaded7).totalPages = 2 ∧
    max 1 (((applyFiltersState "none" "" loaded7).filtered.length + perPage - 1) / perPage)
      = 1 := by
  refine ⟨?_, ?_, ?_⟩ <;> decide

/-- C2 (amended): a record passes the tag predicate exactly when the sentinel
    `"all"` is selected, or its tags collection (single string counted as a
    one-element collection) contains the selected tag case-sensitively, or its
    `tech` field is an *array* whose values, lower-cased at comparison time,
    contain the selected tag.  (A single-string `tech` value is never
    consulted by the tag predicate — see the counterexample.) -/
theorem tag_predicate_c2 (sel : String) (p : NProject) :
    okTech sel p = true ↔
      (sel = "all" ∨ sel ∈ specColl p.tags ∨
        ∃ l, p.tech = .arr l ∧ sel ∈ l.map jsToLower) := by
  unfold okTech
  rw [Bool.or_eq_true, Bool.or_eq_true, beq_iff_eq, tagsMatch_iff, techMatch_iff,
    or_assoc]

/-- C2 counterexample: with tag `"x"` selected, a record whose `tech` is the
    single string `"x"` (tags absent) is rejected by the code, although the
    claim's tech-collection reading accepts it. -/
theorem tech_string_unmatched_c2_counterexample :
    okTech "x" recC2 = false ∧ specTagPred "x" recC2 := by
  constructor
  · decide
  · unfold specTagPred
    right; right
    decide

/-- C3 (amended): ids are stable for the session — no operation after load
    (filter/search, render, page navigation) changes the catalog, hence any
    record's id; and the normalized ids are unique whenever the source's
    explicit ids neither repeat nor collide with any synthesized positional
    id.  (Uniqueness is not enforced by the loader itself — see the
    counterexample.) -/
theorem ids_stable_c3 :
    (∀ sel rawQ s, (applyFiltersState sel rawQ s).projects = s.projects) ∧
    (∀ s, (renderUpdate s).projects = s.projects) ∧
    (∀ s, (nextPage s).projects = s.projects) ∧
    (∀ s, (prevPage s).projects = s.projects) ∧
    (∀ data, sourceIdsOk data → ((loadNormalize data).map NProject.id).Nodup) := by
  refine ⟨?_, renderUpdate_projects, ?_, ?_, ?_⟩
  · intro sel rawQ s
    unfold applyFiltersState
    rw [renderUpdate_projects]
    rfl
  · intro s
    unfold nextPage
    split
    · rw [renderUpdate_projects]
    · rfl
  · intro s
    unfold prevPage
    split
    · rw [renderUpdate_projects]
    · rfl
  · intro data hok
    unfold loadNormalize
    apply normalizeFrom_id_nodup
    · exact hok.1
    · intro s hs i _ hlt
      exact hok.2 s hs i (by omega)

/-- C3 witness: collision-free source data loads to pairwise-distinct ids. -/
theorem ids_stable_c3_witness :
    sourceIdsOk okData ∧ ((loadNormalize okData).map NProject.id).Nodup :=
  ⟨by unfold sourceIdsOk; decide, ids_stable_c3.2.2.2.2 okData (by unfold sourceIdsOk; decide)⟩

/-- C3 counterexample: a record without an id followed by a record whose
    explicit id is `"p1"` loads to the duplicate id list `["p1", "p1"]` — the
    loader does not enforce uniqueness. -/
theorem duplicate_ids_c3_counterexample :
    ¬ ((loadNormalize cexData).map NProject.id).Nodup ∧
    (loadNormalize cexData).map NProject.id = ["p1", "p1"] := by
  constructor <;> decide

/-- C6: for every record and raw query string, the text predicate (applied by
    `applyFilters` to the trimmed, case-folded query) holds unconditionally
    when the trimmed query is empty, and otherwise exactly when the
    case-folded query occurs as a substring of the case-folded haystack built
    from the record's title, description, tech and tags. -/
theorem text_match_c6 (p : NProject) (rawQ : String) :
    textOk (jsToLower (jsTrim rawQ)) p = true ↔
      (jsTrim rawQ = "" ∨
        ∃ a b : String, jsToLower (hay p) = a ++ jsToLower (jsTrim rawQ) ++ b) := by
  unfold textOk
  rw [Bool.or_eq_true, beq_iff_eq, jsToLower_eq_empty_iff, jsIncludes_iff]

/-- C9: a record whose source object carries no id receives the synthesized
    id `"p" + (1-based position)` at load time. -/
theorem missing_id_synthesized_c9 (data : List Project) (i : Nat)
    (h : i < data.length) (h2 : i < (loadNormalize data).length)
    (hid : (data.get ⟨i, h⟩).id = none) :
    ((loadNormalize data).get ⟨i, h2⟩).id = "p" ++ natToString (i + 1) := by
  unfold loadNormalize at h2 ⊢
  rw [normalizeFrom_get 0 data i h h2]
  simp only [List.get_eq_getElem] at hid
  simp [normRec, hid, synthId]

/-- C9 witness: in a three-record catalog whose third entry (0-indexed 2) has
    no id, that record receives id `"p3"`. -/
theorem missing_id_synthesized_c9_witness :
    (dataW9.get ⟨2, by decide⟩).id = none ∧
    ((loadNormalize dataW9).get ⟨2, by decide⟩).id = "p" ++ natToString (2 + 1) ∧
    "p" ++ natToString (2 + 1) = "p3" :=
  ⟨by decide, missing_id_synthesized_c9 dataW9 2 (by decide) (by decide) (by decide), by decide⟩

/-- C10: a search input consisting only of whitespace is trimmed to the empty
    query, so filtering keeps exactly the records passing the tag predicate
    and coincides with filtering under the empty input. -/
theorem whitespace_query_c10 (sel rawQ : String) (l : List NProject)
    (h : rawQ.data.all isWs = true) :
    filterProjects sel rawQ l = l.filter (fun p => okTech sel p) ∧
    filterProjects sel rawQ l = filterProjects sel "" l := by
  have hd : rawQ.data.dropWhile isWs = [] := by
    rw [List.dropWhile_eq_nil_iff]
    intro x hx
    exact List.all_eq_true.mp h x hx
  have htrim : jsTrim rawQ = "" := by
    rw [string_eq_empty_iff]
    unfold jsTrim
    rw [mk_data, hd]
    rfl
  have hq : jsToLower (jsTrim rawQ) = "" := by rw [htrim]; rfl
  constructor
  · unfold filterProjects
    rw [hq]
    apply List.filter_congr
    intro p _
    unfold projPred textOk
    simp
  · unfold filterProjects
    rw [hq]
    rfl

/-- C10 witness: the two-space input filters exactly like the empty input. -/
theorem whitespace_query_c10_witness :
    ("  ".data.all isWs = true) ∧
    filterProjects "x" "  " lw = lw.filter (fun p => okTech "x" p) ∧
    filterProjects "x" "  " lw = filterProjects "x" "" lw :=
  ⟨by decide, (whitespace_query_c10 "x" "  " lw (by decide)).1,
    (whitespace_query_c10 "x" "  " lw (by decide)).2⟩

/-- C7 (amended): the loader fails with the malformed-catalog error exactly
    when the fetch succeeded with an OK status and a parseable body that is
    not an array — element types are never checked, so an array of scalars is
    accepted (see the counterexample); and on any load failure it writes the
    static unable-to-load notice, hides pagination, and leaves the state —
    hence the still-empty catalog store — untouched, with no retry. -/
theorem load_failure_c7 (fr : FetchResult) :
    (loadParse fr = .error .notAnArray ↔
      ∃ v, fr = .response true (some v) ∧ ∀ l, v ≠ .jarr l) ∧
    (∀ s e, loadParse fr = .error e →
      loadStep fr s = (s, { grid := .loadErrorNotice, paginationHidden := true })) := by
  constructor
  · cases fr with
    | networkFailure => simp [loadParse]
    | response ok body =>
      cases ok with
      | false => simp [loadParse]
      | true =>
        cases body with
        | none => simp [loadParse]
        | some v =>
          cases v with
          | jarr l =>
            simp only [loadParse]
            constructor
            · intro hcon; exact absurd hcon (by simp)
            · rintro ⟨w, hw, hne⟩
              have hwl : w = .jarr l := by
                have := hw.symm
                simp only [FetchResult.response.injEq, Option.some.injEq] at this
                exact this.2
              exact absurd hwl (hne l)
          | jnull => exact ⟨fun _ => ⟨.jnull, rfl, fun l => by simp⟩, fun _ => rfl⟩
          | jbool b => exact ⟨fun _ => ⟨.jbool b, rfl, fun l => by simp⟩, fun _ => rfl⟩
          | jnum n => exact ⟨fun _ => ⟨.jnum n, rfl, fun l => by simp⟩, fun _ => rfl⟩
          | jstr t => exact ⟨fun _ => ⟨.jstr t, rfl, fun l => by simp⟩, fun _ => rfl⟩
          | jobj fs => exact ⟨fun _ => ⟨.jobj fs, rfl, fun l => by simp⟩, fun _ => rfl⟩
  · intro s e herr
    unfold loadStep
    rw [herr]

/-- C7 witness: a rejected fetch leaves the initial (empty) store untouched
    and shows the unable-to-load notice with pagination hidden. -/
theorem load_failure_c7_witness :
    loadStep .networkFailure initialState =
      (initialState, { grid := .loadErrorNotice, paginationHidden := true }) :=
  (load_failure_c7 .networkFailure).2 initialState .fetchRejected rfl

/-- C7 counterexample: the body `[1]` is a sequence but not a sequence of
    objects, yet the loader accepts it — `load` only tests `Array.isArray`. -/
theorem scalar_array_accepted_c7_counterexample :
    loadParse (.response true (some scalarArray)) = .ok [.jnum 1] ∧
    ([JsVal.jnum 1].all isObjVal) = false :=
  ⟨rfl, rfl⟩

end Portfolio
